import Mathlib

/-!
Verification development for the indexing-and-search subsystem of the
react-native-starter-app repository.

The definitions below are a shallow embedding of the source:

* `Database` module (src/unnamed/part_000): the `document_index` table,
  `indexDocument` (upsert, FTS and non-FTS branches), `isFileIndexed`,
  and `searchDocuments` (FTS5 phrase-prefix path with LIKE fallback).
* `GallerySync.ts`: `performFullGallerySync` (paged, resumable, cancellable
  sync loop), `saveCursor` / `loadSavedCursor` / `clearSyncCursor`.
* `TextEnrichment.ts`: `containsHindi`, `enrichHindiText`,
  `buildIndexableContent`.

Modelling conventions:

* JavaScript strings are Lean `String`s; `String.prototype.trim` is
  modelled by `jsTrim` (whitespace stripped from both ends).
* SQLite tables are Lean lists of rows plus a `nextId` counter modelling
  `AUTOINCREMENT`.  `INSERT OR REPLACE` on the `filePath UNIQUE` column and
  `DELETE`-then-`INSERT` are modelled row-by-row.
* The FTS5 virtual table mirrors `document_index` exactly (the triggers in
  `setupDatabase` keep the two in lockstep), so FTS queries are evaluated
  over the same row list.  `MATCH '"q"*'` (phrase query with a trailing
  prefix star, `unicode61` tokenizer) is modelled by tokenizing on
  non-alphanumeric characters with ASCII case folding; `ORDER BY rank` is
  abstracted as table order, which no claim depends on.
* `LIKE ? COLLATE NOCASE` is modelled by a full LIKE pattern matcher
  (`%`/`_` wildcards) with ASCII case folding, as in SQLite.
* Asynchronous effects are modelled by explicit state passing; the
  external collaborators (CameraRoll pagination, ML-Kit OCR, the
  generative engine, AsyncStorage) are parameters of a `SyncEnv` record.
  The cooperative cancellation flag is modelled as a function of the
  number of items processed so far, sampled at exactly the two check
  points of the source (top of the page loop, before each item).
-/

namespace Pinpoint

/-- JS whitespace for `String.prototype.trim` (common cases). -/
def isJsWs (c : Char) : Bool :=
  c == ' ' || c == '\t' || c == '\n' || c == '\r' || c == '\x0b' || c == '\x0c'

/-- Strip leading and trailing whitespace from a character list. -/
def trimChars (l : List Char) : List Char :=
  ((l.dropWhile isJsWs).reverse.dropWhile isJsWs).reverse

/-- Model of `String.prototype.trim`. -/
def jsTrim (s : String) : String :=
  String.mk (trimChars s.data)

/-- ASCII lower-casing, as used by SQLite `NOCASE` and the `unicode61`
tokenizer's case folding on ASCII. -/
def lowerAscii (c : Char) : Char :=
  if 'A' ≤ c && c ≤ 'Z' then Char.ofNat (c.toNat + 32) else c

/-- Holds when the list is empty or does not start with whitespace. -/
def headNotWs : List Char → Bool
  | [] => true
  | a :: _ => !isJsWs a

/-- Holds when the list neither starts nor ends with whitespace. -/
def noEdgeWs (l : List Char) : Bool :=
  headNotWs l && headNotWs l.reverse

-- ─── Document store (src/unnamed/part_000) ────────────────────────────────

/-- Values of the `detection_type` column (`DocumentRecord.detection_type`). -/
inductive DetectionType where
  | TEXT
  | OBJECT
  | EMPTY
deriving DecidableEq, Repr

/-- One row of the `document_index` table. -/
structure Row where
  id : Nat
  content : String
  filePath : String
  category : String
  detection_type : DetectionType
deriving DecidableEq, Repr

/-- The `document_index` table plus the `AUTOINCREMENT` counter. -/
structure DB where
  rows : List Row
  nextId : Nat
deriving DecidableEq, Repr

def emptyDB : DB := ⟨[], 1⟩

/-- Model of `indexDocument(text, path, category, detectionType)`.
FTS branch: `DELETE FROM document_index WHERE filePath = ?` then `INSERT`.
Fallback branch: `INSERT OR REPLACE` keyed on the `filePath UNIQUE`
constraint.  Both store `text.trim()`; the fresh row always receives a new
`AUTOINCREMENT` id. -/
def indexDocument (ftsAvailable : Bool) (text path category : String)
    (detectionType : DetectionType) (db : DB) : DB :=
  if ftsAvailable then
    -- DELETE FROM document_index WHERE filePath = ?  (fires the FTS triggers)
    -- INSERT INTO document_index (content, filePath, category, detection_type)
    let deleted := db.rows.filter (fun r => r.filePath != path)
    ⟨deleted ++ [⟨db.nextId, jsTrim text, path, category, detectionType⟩],
      db.nextId + 1⟩
  else
    -- INSERT OR REPLACE: SQLite removes the row conflicting on the
    -- filePath UNIQUE constraint (the fresh AUTOINCREMENT id cannot
    -- conflict) and inserts the new row
    let deleted := db.rows.filter (fun r => r.filePath != path)
    ⟨deleted ++ [⟨db.nextId, jsTrim text, path, category, detectionType⟩],
      db.nextId + 1⟩

/-- Model of `isFileIndexed(path)`: point lookup on `filePath`. -/
def isFileIndexed (path : String) (db : DB) : Bool :=
  db.rows.any (fun r => r.filePath == path)

/-- One `indexDocument` call (its four arguments). -/
structure IndexOp where
  text : String
  path : String
  category : String
  dt : DetectionType
deriving DecidableEq, Repr

/-- Replay a sequence of `indexDocument` calls against the empty store. -/
def applyOps (ftsAvailable : Bool) (ops : List IndexOp) : DB :=
  ops.foldl (fun db op => indexDocument ftsAvailable op.text op.path op.category op.dt db) emptyDB

-- ─── Search (src/unnamed/part_000, `searchDocuments`) ─────────────────────

/-- Token characters of the `unicode61` tokenizer, restricted to ASCII
alphanumerics (all strings in the claims are ASCII). -/
def isTokenChar (c : Char) : Bool := c.isAlphanum

/-- Tokenize into lower-cased maximal runs of token characters. -/
def tokenizeAux : List Char → List Char → List (List Char)
  | [], cur => if cur.isEmpty then [] else [cur.reverse]
  | c :: rest, cur =>
    if isTokenChar c then tokenizeAux rest (lowerAscii c :: cur)
    else if cur.isEmpty then tokenizeAux rest []
    else cur.reverse :: tokenizeAux rest []

def tokenize (s : String) : List (List Char) := tokenizeAux s.data []

/-- Does the token stream start with the phrase `qtoks`, the last query
token matching as a prefix (FTS5 `"q"*` semantics)? -/
def tokensMatchAt : List (List Char) → List (List Char) → Bool
  | [], _ => true
  | [q], t :: _ => q.isPrefixOf t
  | _ :: _, [] => false
  | q :: qs, t :: ts => q == t && tokensMatchAt qs ts

/-- Scan every suffix of the content token stream for the phrase. -/
def scanTokens (qtoks : List (List Char)) : List (List Char) → Bool
  | [] => tokensMatchAt qtoks []
  | t :: ts => tokensMatchAt qtoks (t :: ts) || scanTokens qtoks ts

/-- Does `content` match the FTS5 query `"q"*`? -/
def ftsMatchDoc (qtoks : List (List Char)) (content : String) : Bool :=
  scanTokens qtoks (tokenize content)

/-- Characters kept by `trimmed.replace(/[^\w\s-]/g, '')`. -/
def keepSafeChar (c : Char) : Bool :=
  c.isAlphanum || c == '_' || c == '-' || isJsWs c

/-- Holds when `p` accepts some suffix of the list. -/
def anySuffix (p : List Char → Bool) : List Char → Bool
  | [] => p []
  | c :: ts => p (c :: ts) || anySuffix p ts

/-- SQLite `LIKE` with `COLLATE NOCASE` (ASCII case folding):
`%` matches any run, `_` any single character. -/
def likeMatch : List Char → List Char → Bool
  | [], t => t.isEmpty
  | p :: ps, t =>
    if p = '%' then anySuffix (fun u => likeMatch ps u) t
    else if p = '_' then
      match t with
      | [] => false
      | _ :: ts => likeMatch ps ts
    else
      match t with
      | [] => false
      | c :: ts => lowerAscii p == lowerAscii c && likeMatch ps ts

/-- Model of `content LIKE '%' || q || '%' COLLATE NOCASE`. -/
def likeContains (q : String) (content : String) : Bool :=
  likeMatch ('%' :: q.data ++ ['%']) content.data

/-- The rows produced by the accelerated (FTS5) path of `searchDocuments`:
sanitize the query, and if anything is left issue the phrase-prefix match
(joined back to `document_index`, which the triggers keep mirrored),
capped at 50 rows.  An unavailable index, an empty sanitized query, or a
query with no tokens (which errors out in SQLite and is caught) all yield
no rows here. -/
def ftsCandidates (ftsAvailable : Bool) (db : DB) (trimmed : String) : List Row :=
  if ftsAvailable then
    let safeQuery := jsTrim (String.mk (trimmed.data.filter keepSafeChar))
    if safeQuery.isEmpty then []
    else
      let qtoks := tokenize safeQuery
      if qtoks.isEmpty then []
      else (db.rows.filter (fun r => ftsMatchDoc qtoks r.content)).take 50
  else []

/-- Model of `searchDocuments(query)`: trim, try the FTS5 path, and fall back to a
`LIKE '%…%' COLLATE NOCASE LIMIT 50` scan when the FTS5 path is
unavailable, errors out, or returns zero rows. -/
def searchDocuments (ftsAvailable : Bool) (db : DB) (query : String) : List Row :=
  let trimmed := jsTrim query
  if trimmed.isEmpty then []
  else
    let ftsRows := ftsCandidates ftsAvailable db trimmed
    if ftsRows.isEmpty then
      (db.rows.filter (fun r => likeContains trimmed r.content)).take 50
    else ftsRows

-- ─── Enrichment (TextEnrichment.ts) ───────────────────────────────────────

/-- Model of `containsHindi`: any character in the Devanagari block U+0900–U+097F. -/
def containsHindi (text : String) : Bool :=
  text.data.any (fun c => 0x900 ≤ c.toNat && c.toNat ≤ 0x97F)

/-- Model of `enrichHindiText`: truncate to 300 characters, call the generative
engine (`gen`, the external collaborator: `Except` failure models a thrown
error) and return the trimmed keyword string; a failed call is caught and
yields the empty string. -/
def enrichHindiText (gen : String → Except Unit String) (hindiText : String) : String :=
  match gen (String.mk (hindiText.data.take 300)) with
  | .error _ => ""
  | .ok t => jsTrim t

/-- Model of `buildIndexableContent(rawText)`: empty or whitespace-only input gives
`''`; Devanagari input is enriched (original + keywords, trimmed);
anything else is returned unchanged. -/
def buildIndexableContent (gen : String → Except Unit String) (rawText : String) : String :=
  if (jsTrim rawText).length = 0 then ""
  else if containsHindi rawText then
    jsTrim (rawText ++ " " ++ enrichHindiText gen rawText)
  else rawText

-- ─── Gallery sync (GallerySync.ts) ────────────────────────────────────────

/-- The per-item content decision of the sync loop body
(GallerySync.ts lines 101–119): OCR failure (`Except.error`) is caught and
stores the sentinel `'image'`; trimmed text of length ≥ 15 is enriched;
shorter non-blank text is stored as-is; blank text stores the sentinel. -/
def itemContent (gen : String → Except Unit String) (ocr : Except Unit String) : String :=
  match ocr with
  | .error _ => "image"
  | .ok rawText =>
    if 15 ≤ (jsTrim rawText).length then buildIndexableContent gen rawText
    else if 0 < (jsTrim rawText).length then rawText
    else "image"

/-- External collaborators and the cancellation signal of one sync run.
`gallery` lists the item URIs in enumerator order; `ocr` is the text
extractor; `gen` the generative engine; `fetchFail n` models
`CameraRoll.getPhotos` throwing when fetching the page that starts at
item `n`; `cancel n` is the value of `cancelRef.current` observed by a
check performed when `n` items have been processed so far. -/
structure SyncEnv where
  gallery : List String
  ocr : String → Except Unit String
  gen : String → Except Unit String
  fetchFail : Nat → Bool
  cancel : Nat → Bool

/-- Process one item of a page (the body of the `for` loop without the
cancellation check): skip OCR if the path is already indexed, otherwise
upsert with category `'Gallery Sync'` and the *default* detection type
`'TEXT'` (the call sites pass no fourth argument). -/
def processItem (env : SyncEnv) (ftsAvailable : Bool) (db : DB) (uri : String) : DB :=
  if isFileIndexed uri db then db
  else indexDocument ftsAvailable (itemContent env.gen (env.ocr uri)) uri "Gallery Sync" .TEXT db

/-- Fold `processItem` over a list of items (no cancellation checks). -/
def processList (env : SyncEnv) (ftsAvailable : Bool) (items : List String) (db : DB) : DB :=
  items.foldl (processItem env ftsAvailable) db

/-- The inner `for (const edge of pageResult.edges)` loop.  Before each
item the cancellation flag is sampled at the current processed count; on
cancellation the loop stops where it is.  Returns (cancelled?, table,
processed count, progress trace). -/
def processPage (env : SyncEnv) (ftsAvailable : Bool) :
    List String → DB → Nat → List String → Bool × DB × Nat × List String
  | [], db, n, tr => (false, db, n, tr)
  | uri :: rest, db, n, tr =>
    if env.cancel n then (true, db, n, tr)
    else processPage env ftsAvailable rest (processItem env ftsAvailable db uri) (n + 1) (tr ++ [uri])

deriving instance DecidableEq for Except

/-- What one `performFullGallerySync` call leaves behind: the returned
value (`Except.error` models the re-thrown exception of the `catch`
block), the AsyncStorage cursor after the run, the `onProgress` trace and
the document table. -/
structure SyncOutcome where
  result : Except Unit (Nat × Bool)
  persisted : Option Nat
  trace : List String
  db : DB
deriving DecidableEq, Repr

/-- The `while (hasNextPage)` loop of `performFullGallerySync`.  A cursor
is the index of the first item of the next page (`end_cursor`); `after`
is the loop's local cursor, `persisted` the AsyncStorage state.  `fuel`
bounds the recursion and is chosen large enough by the wrapper.  One page
is `BATCH_SIZE = 10` items. -/
def syncLoop (env : SyncEnv) (ftsAvailable : Bool) :
    Nat → Option Nat → Option Nat → DB → Nat → List String → SyncOutcome
  | 0, _, persisted, db, _, tr => ⟨.error (), persisted, tr, db⟩
  | fuel + 1, after, persisted, db, total, tr =>
    -- top-of-loop pause/cancel check: return without touching the cursor
    if env.cancel total then ⟨.ok (total, true), persisted, tr, db⟩
    else
      let start := after.getD 0
      -- CameraRoll.getPhotos: on a throw the catch block saves `after`
      if env.fetchFail start then ⟨.error (), after, tr, db⟩
      else
        let edges := (env.gallery.drop start).take 10
        if edges.isEmpty then
          -- `pageResult.edges.length === 0` → break → clearSyncCursor
          ⟨.ok (total, false), none, tr, db⟩
        else
          match processPage env ftsAvailable edges db total tr with
          | (true, db', n', tr') =>
            -- cancelled mid-page: saveCursor(after) then return
            ⟨.ok (n', true), after, tr', db'⟩
          | (false, db', n', tr') =>
            let after' := some (start + edges.length)
            -- saveCursor(after') — the crash-recovery checkpoint
            if start + 10 < env.gallery.length then
              syncLoop env ftsAvailable fuel after' after' db' n' tr'
            else
              -- hasNextPage false → exit loop → clearSyncCursor
              ⟨.ok (n', false), none, tr', db'⟩

/-- Model of `performFullGallerySync(onProgress, cancelRef, resumeFrom)` against an
initial AsyncStorage cursor `persisted0` and document table `db0`:
`after = resumeFrom ?? await loadSavedCursor()`. -/
def performFullGallerySync (env : SyncEnv) (ftsAvailable : Bool)
    (resumeFrom : Option Nat) (persisted0 : Option Nat) (db0 : DB) : SyncOutcome :=
  syncLoop env ftsAvailable (env.gallery.length + 1) (resumeFrom <|> persisted0) persisted0 db0 0 []

-- ─── Auxiliary predicates used in the statements ──────────────────────────

/-- Substring test on character lists (`needle` occurs contiguously in
`hay`); applied to case-folded lists it expresses the case-insensitive
"contains as an exact substring" of the specification. -/
def listContains (needle : List Char) : List Char → Bool
  | [] => needle.isEmpty
  | c :: ts => needle.isPrefixOf (c :: ts) || listContains needle ts

/-- Case-folded substring test on strings. -/
def containsSub (needle hay : String) : Bool :=
  listContains (needle.data.map lowerAscii) (hay.data.map lowerAscii)

/-- The table holds, for path `u`, a sentinel row as written by the sync
loop's extraction-failure and empty-extraction paths. -/
def sentinelRowFor (u : String) (db : DB) : Prop :=
  ∃ r ∈ db.rows, r.filePath = u ∧ r.content = "image"
    ∧ r.category = "Gallery Sync" ∧ r.detection_type = DetectionType.TEXT

end Pinpoint

-- ═══ Store lemmas (claims C1, C10) ════════════════════════════════════════

namespace Pinpoint

theorem indexDocument_eq (fts : Bool) (t p c : String) (d : DetectionType) (db : DB) :
    indexDocument fts t p c d db =
      ⟨db.rows.filter (fun r => r.filePath != p) ++ [⟨db.nextId, jsTrim t, p, c, d⟩],
        db.nextId + 1⟩ := by
  cases fts <;> rfl

theorem applyOps_concat (fts : Bool) (l : List IndexOp) (op : IndexOp) :
    applyOps fts (l ++ [op])
      = indexDocument fts op.text op.path op.category op.dt (applyOps fts l) := by
  simp [applyOps, List.foldl_append]

theorem filter_eq_after_filter_ne (l : List Row) (q : String) :
    (l.filter (fun r => r.filePath != q)).filter (fun r => r.filePath == q) = [] := by
  induction l with
  | nil => rfl
  | cons a t ih =>
    by_cases h : a.filePath = q
    · simpa [List.filter_cons, h] using ih
    · simpa [List.filter_cons, h] using ih

theorem filter_and_self_ne (t : List Row) (q : String) :
    t.filter (fun a => a.filePath == q && a.filePath != q) = [] := by
  induction t with
  | nil => rfl
  | cons a t ih => by_cases h : a.filePath = q <;> simp [List.filter_cons, h, ih]

theorem filter_and_ne (t : List Row) (p q : String) (h : p ≠ q) :
    t.filter (fun a => a.filePath == p && a.filePath != q)
      = t.filter (fun r => r.filePath == p) := by
  apply List.filter_congr
  intro a _
  by_cases hp : a.filePath = p
  · have hq : (a.filePath == q) = false := by
      rw [hp]; simpa using h
    simp [hp, bne, hq, h]
  · simp [hp]

theorem dropWhile_head_false :
    ∀ (l : List Char) (c : Char) (t : List Char),
      List.dropWhile isJsWs l = c :: t → isJsWs c = false := by
  intro l
  induction l with
  | nil => intro c t h; simp [List.dropWhile] at h
  | cons a l ih =>
    intro c t h
    by_cases ha : isJsWs a
    · rw [List.dropWhile_cons, if_pos ha] at h
      exact ih c t h
    · rw [List.dropWhile_cons, if_neg ha] at h
      obtain ⟨rfl, -⟩ := List.cons.inj h
      simpa using ha

theorem dropWhile_suffix_exists (l : List Char) :
    ∃ s, l = s ++ List.dropWhile isJsWs l := by
  induction l with
  | nil => exact ⟨[], rfl⟩
  | cons a t ih =>
    by_cases ha : isJsWs a
    · obtain ⟨s, hs⟩ := ih
      refine ⟨a :: s, ?_⟩
      rw [List.dropWhile_cons, if_pos ha, List.cons_append, ← hs]
    · exact ⟨[], by rw [List.dropWhile_cons, if_neg ha]; rfl⟩

theorem noEdgeWs_trimChars (l : List Char) : noEdgeWs (trimChars l) = true := by
  unfold trimChars noEdgeWs
  rcases hrr : List.dropWhile isJsWs (List.dropWhile isJsWs l).reverse with - | ⟨c, t⟩
  · simp [headNotWs]
  · have hc : isJsWs c = false := dropWhile_head_false _ c t hrr
    obtain ⟨s, hs⟩ := dropWhile_suffix_exists (List.dropWhile isJsWs l).reverse
    rw [hrr] at hs
    have hm2 : List.dropWhile isJsWs l = (c :: t).reverse ++ s.reverse := by
      have h2 := congrArg List.reverse hs
      simpa using h2
    rcases hrev : (c :: t).reverse with - | ⟨d, u⟩
    · exfalso; simpa using congrArg List.length hrev
    · have hdm : List.dropWhile isJsWs l = d :: (u ++ s.reverse) := by
        rw [hm2, hrev]; rfl
      have hd : isJsWs d = false := dropWhile_head_false l d _ hdm
      have hrev2 : (d :: u).reverse = c :: t := by
        rw [← hrev]; simp
      rw [hrev2]
      simp [headNotWs, hd, hc]

theorem C1_helper (fts : Bool) (ops : List IndexOp) (p : String) :
    ((applyOps fts ops).rows.filter (fun r => r.filePath == p)).map
        (fun r => (r.content, r.category, r.detection_type))
      = ((ops.filter (fun op => op.path == p)).getLast?.map
          (fun op => (jsTrim op.text, op.category, op.dt))).toList := by
  induction ops using List.reverseRecOn with
  | nil => simp [applyOps, emptyDB]
  | append_singleton l op ih =>
    rw [applyOps_concat, indexDocument_eq]
    by_cases h : op.path = p
    · subst h
      simp [List.filter_append, List.filter_filter, filter_and_self_ne]
    · have h3 : (op.path == p) = false := by simpa using h
      simp [List.filter_append, List.filter_filter, h3,
        filter_and_ne _ p op.path (fun hh => h hh.symm), ih]

end Pinpoint

-- ═══ Claim C1 (corrected) and claim C10 ═══════════════════════════════════

namespace Pinpoint

/-- C1, counterexample to the claim as stated: after
`indexDocument(' a ', 'p', …)` the single row for path `'p'` holds content
`'a'`, not the content `' a '` of the most recent call — the store trims
before inserting, so the row's content is not literally "that of the most
recent call" when the argument carries edge whitespace. -/
theorem C1_counterexample :
    ((applyOps true [⟨" a ", "p", "General", DetectionType.TEXT⟩]).rows.map
        (fun r => r.content) = ["a"])
    ∧ (" a " : String) ≠ "a" := by
  constructor
  · decide
  · decide

/-- C1 (amended): for every sequence of `indexDocument` calls, replayed
with either value of the FTS-availability flag (delete-then-insert branch
and insert-or-replace branch), the table holds at most one row per path,
and for each path the row's content is the *trimmed* content of the most
recent call for that path, with that call's category and kind; a path
never indexed has no row. -/
theorem C1_upsert_unique_last_write (fts : Bool) (ops : List IndexOp) (p : String) :
    (((applyOps fts ops).rows.filter (fun r => r.filePath == p)).map
        (fun r => (r.content, r.category, r.detection_type))
      = ((ops.filter (fun op => op.path == p)).getLast?.map
          (fun op => (jsTrim op.text, op.category, op.dt))).toList)
    ∧ ((applyOps fts ops).rows.filter (fun r => r.filePath == p)).length ≤ 1 := by
  refine ⟨C1_helper fts ops p, ?_⟩
  have h := congrArg List.length (C1_helper fts ops p)
  rw [List.length_map] at h
  rw [h]
  cases (ops.filter (fun op => op.path == p)).getLast? <;> simp

/-- C10: every row ever written through `indexDocument` stores the
`trim()` of the content argument of the call that produced it — in both
the accelerated-index branch and the fallback branch — so no stored
content has leading or trailing whitespace. -/
theorem C10_indexDocument_trims_content (fts : Bool) (ops : List IndexOp) :
    ∀ r ∈ (applyOps fts ops).rows,
      (∃ op ∈ ops, r.filePath = op.path ∧ r.content = jsTrim op.text)
      ∧ noEdgeWs r.content.data = true := by
  induction ops using List.reverseRecOn with
  | nil => intro r hr; simp [applyOps, emptyDB] at hr
  | append_singleton l op ih =>
    intro r hr
    rw [applyOps_concat, indexDocument_eq] at hr
    rcases List.mem_append.1 hr with hl | hnew
    · obtain ⟨hmem, -⟩ := List.mem_filter.1 hl
      obtain ⟨⟨w, hw, h1, h2⟩, h3⟩ := ih r hmem
      exact ⟨⟨w, List.mem_append_left _ hw, h1, h2⟩, h3⟩
    · have hr2 : r = ⟨(applyOps fts l).nextId, jsTrim op.text, op.path, op.category, op.dt⟩ :=
        List.mem_singleton.1 hnew
      subst hr2
      refine ⟨⟨op, List.mem_append_right _ (List.mem_singleton.2 rfl), rfl, rfl⟩, ?_⟩
      exact noEdgeWs_trimChars _

/-- C10, witness: a concrete run with content `' hi '` produces the row
with trimmed content `'hi'`, and the theorem applies to it. -/
theorem C10_indexDocument_trims_content_witness :
    ((⟨1, "hi", "p", "c", DetectionType.TEXT⟩ : Row)
        ∈ (applyOps true [⟨" hi ", "p", "c", DetectionType.TEXT⟩]).rows)
    ∧ ((∃ op ∈ [(⟨" hi ", "p", "c", DetectionType.TEXT⟩ : IndexOp)],
          (⟨1, "hi", "p", "c", DetectionType.TEXT⟩ : Row).filePath = op.path
          ∧ (⟨1, "hi", "p", "c", DetectionType.TEXT⟩ : Row).content = jsTrim op.text)
        ∧ noEdgeWs (⟨1, "hi", "p", "c", DetectionType.TEXT⟩ : Row).content.data = true) :=
  ⟨by decide,
    C10_indexDocument_trims_content true [⟨" hi ", "p", "c", DetectionType.TEXT⟩]
      ⟨1, "hi", "p", "c", DetectionType.TEXT⟩ (by decide)⟩

end Pinpoint

-- ═══ LIKE-matcher lemmas and claim C2 (corrected) ═════════════════════════

namespace Pinpoint

theorem anySuffix_here (p : List Char → Bool) (t : List Char) (h : p t = true) :
    anySuffix p t = true := by
  cases t <;> simp [anySuffix, h]

theorem anySuffix_append (p : List Char → Bool) (s t : List Char)
    (h : anySuffix p t = true) : anySuffix p (s ++ t) = true := by
  induction s with
  | nil => simpa using h
  | cons a s ih => simp [anySuffix, ih]

theorem anySuffix_of_nil_true (p : List Char → Bool) (h : p [] = true) :
    ∀ t, anySuffix p t = true := by
  intro t
  induction t with
  | nil => simpa [anySuffix] using h
  | cons a ts ih => simp [anySuffix, ih]

theorem likeMatch_trailing_percent (t : List Char) : likeMatch ['%'] t = true := by
  have h := anySuffix_of_nil_true (fun u => likeMatch [] u) (by simp [likeMatch]) t
  simpa [likeMatch] using h

theorem likeMatch_append_of_fold_eq :
    ∀ (q u ps t : List Char), u.map lowerAscii = q.map lowerAscii →
      likeMatch ps t = true → likeMatch (q ++ ps) (u ++ t) = true := by
  intro q
  induction q with
  | nil =>
    intro u ps t hu h
    have hu0 : u = [] := by simpa using hu
    subst hu0
    simpa using h
  | cons a q ih =>
    intro u ps t hu h
    cases u with
    | nil => simp at hu
    | cons b u' =>
      simp only [List.map_cons, List.cons.injEq] at hu
      obtain ⟨hb, hu'⟩ := hu
      by_cases ha1 : a = '%'
      · subst ha1
        have hin : likeMatch (q ++ ps) (u' ++ t) = true := ih u' ps t hu' h
        have hsuf : anySuffix (fun v => likeMatch (q ++ ps) v) (u' ++ t) = true :=
          anySuffix_here _ _ hin
        simp only [List.cons_append, likeMatch, if_pos rfl]
        simp [anySuffix, hsuf]
      · by_cases ha2 : a = '_'
        · subst ha2
          simp only [List.cons_append, likeMatch, ha1, if_false, if_pos rfl]
          exact ih u' ps t hu' h
        · have h1 : (lowerAscii a == lowerAscii b) = true := by
            simp [hb]
          simp only [List.cons_append, likeMatch, ha1, ha2, if_false]
          simp [h1, ih u' ps t hu' h]

theorem likeMatch_wrap_of_contains :
    ∀ (hay q : List Char),
      listContains (q.map lowerAscii) (hay.map lowerAscii) = true →
      likeMatch ('%' :: q ++ ['%']) hay = true := by
  intro hay
  induction hay with
  | nil =>
    intro q h
    have hq : q = [] := by
      have := h
      simp [listContains, List.isEmpty_iff] at this
      simpa using this
    subst hq
    decide
  | cons c hs ih =>
    intro q h
    simp only [List.map_cons, listContains, Bool.or_eq_true] at h
    rcases h with hpre | hrest
    · -- the folded needle is a prefix of the folded haystack here
      have hpre2 : q.map lowerAscii <+: lowerAscii c :: hs.map lowerAscii :=
        List.isPrefixOf_iff_prefix.1 hpre
      obtain ⟨rest, hrestEq⟩ := hpre2
      have hsplit : c :: hs = (c :: hs).take (q.map lowerAscii).length
          ++ (c :: hs).drop (q.map lowerAscii).length := (List.take_append_drop _ _).symm
      have hmapta : ((c :: hs).take (q.map lowerAscii).length).map lowerAscii
          = q.map lowerAscii := by
        rw [List.map_take]
        have : (c :: hs).map lowerAscii = q.map lowerAscii ++ rest := by
          simpa using hrestEq.symm
        rw [this, List.take_left]
      have hmain : likeMatch (q ++ ['%'])
          ((c :: hs).take (q.map lowerAscii).length
            ++ (c :: hs).drop (q.map lowerAscii).length) = true := by
        apply likeMatch_append_of_fold_eq
        · rw [hmapta]
        · exact likeMatch_trailing_percent _
      rw [← hsplit] at hmain
      show likeMatch ('%' :: (q ++ ['%'])) (c :: hs) = true
      simp only [likeMatch, if_pos rfl]
      exact anySuffix_here _ _ hmain
    · have htail : likeMatch ('%' :: q ++ ['%']) hs = true := ih q hrest
      have htail2 : anySuffix (fun u => likeMatch (q ++ ['%']) u) hs = true := by
        simpa [likeMatch] using htail
      show likeMatch ('%' :: (q ++ ['%'])) (c :: hs) = true
      simp [likeMatch, anySuffix, htail2]

theorem likeContains_of_containsSub (q c : String) (h : containsSub q c = true) :
    likeContains q c = true := by
  unfold containsSub at h
  unfold likeContains
  exact likeMatch_wrap_of_contains c.data q.data h

end Pinpoint

-- ═══ Claim C2 (corrected) ═════════════════════════════════════════════════

namespace Pinpoint

/-- C2, counterexample to the claim as stated: with the accelerated index
available, the document `'foobar'` contains the query `'oob'` as an exact
substring, yet `searchDocuments` returns only the other row `'oob'`
(whose token matches the phrase-prefix query) — a non-empty
accelerated-path result is returned as-is and the substring fallback is
never consulted, so the matching document is omitted. -/
theorem C2_counterexample :
    (containsSub "oob" "foobar" = true)
    ∧ ((⟨1, "foobar", "pA", "c", DetectionType.TEXT⟩ : Row)
        ∈ (⟨[⟨1, "foobar", "pA", "c", DetectionType.TEXT⟩,
              ⟨2, "oob", "pB", "c", DetectionType.TEXT⟩], 3⟩ : DB).rows)
    ∧ (searchDocuments true
        ⟨[⟨1, "foobar", "pA", "c", DetectionType.TEXT⟩,
          ⟨2, "oob", "pB", "c", DetectionType.TEXT⟩], 3⟩ "oob"
        = [⟨2, "oob", "pB", "c", DetectionType.TEXT⟩])
    ∧ (⟨1, "foobar", "pA", "c", DetectionType.TEXT⟩ : Row)
        ∉ searchDocuments true
            ⟨[⟨1, "foobar", "pA", "c", DetectionType.TEXT⟩,
              ⟨2, "oob", "pB", "c", DetectionType.TEXT⟩], 3⟩ "oob" := by
  refine ⟨by decide, by decide, by decide, by decide⟩

/-- C2 (amended): for every stored document whose content contains a given
trimmed non-empty string as an exact substring (ASCII-case-insensitively),
`searchDocuments` of that string returns that document *provided* the
accelerated (FTS5) path contributes no rows — because it is unavailable,
its query sanitizes to nothing, it errors out, or its phrase-prefix match
finds nothing — and at most 50 rows match the substring scan.  When the
accelerated path returns one or more rows, those rows are returned as-is
and a substring-only match may be omitted (see the counterexample). -/
theorem C2_search_fallback_recall (fts : Bool) (db : DB) (query : String) (r : Row)
    (htrim : jsTrim query = query)
    (hq : query.isEmpty = false)
    (hr : r ∈ db.rows)
    (hsub : containsSub query r.content = true)
    (hfts : ftsCandidates fts db query = [])
    (hlim : (db.rows.filter (fun d => likeContains query d.content)).length ≤ 50) :
    r ∈ searchDocuments fts db query := by
  unfold searchDocuments
  rw [htrim]
  dsimp only
  rw [hfts]
  simp only [hq, Bool.false_eq_true, if_false, List.isEmpty_nil, if_true]
  rw [List.take_of_length_le hlim]
  exact List.mem_filter.2 ⟨hr, likeContains_of_containsSub _ _ hsub⟩

/-- C2, witness: the document `'Hello World'` is found by the fallback
scan for the case-shifted substring query `'LO w'` when the accelerated
index is unavailable. -/
theorem C2_search_fallback_recall_witness :
    (jsTrim "LO w" = "LO w" ∧ containsSub "LO w" "Hello World" = true)
    ∧ (⟨1, "Hello World", "p1", "c", DetectionType.TEXT⟩ : Row)
        ∈ searchDocuments false ⟨[⟨1, "Hello World", "p1", "c", DetectionType.TEXT⟩], 2⟩ "LO w" :=
  ⟨⟨by decide, by decide⟩,
    C2_search_fallback_recall false ⟨[⟨1, "Hello World", "p1", "c", DetectionType.TEXT⟩], 2⟩
      "LO w" ⟨1, "Hello World", "p1", "c", DetectionType.TEXT⟩
      (by decide) (by decide) (by decide) (by decide) (by decide) (by decide)⟩

end Pinpoint

-- ═══ Enrichment lemmas and claims C5, C7, C8 ══════════════════════════════

namespace Pinpoint

theorem dropWhile_ws_append (l t : List Char) :
    List.dropWhile isJsWs (l ++ t)
      = if (List.dropWhile isJsWs l).isEmpty then List.dropWhile isJsWs t
        else List.dropWhile isJsWs l ++ t := by
  induction l with
  | nil => simp
  | cons a l ih =>
    by_cases ha : isJsWs a
    · simpa [List.dropWhile_cons, ha] using ih
    · simp [List.dropWhile_cons, ha]

theorem trimChars_append_space (l : List Char) : trimChars (l ++ [' ']) = trimChars l := by
  unfold trimChars
  rw [dropWhile_ws_append]
  by_cases hm : (List.dropWhile isJsWs l).isEmpty
  · rw [if_pos hm]
    have h1 : List.dropWhile isJsWs [' '] = ([] : List Char) := by decide
    have hm2 : List.dropWhile isJsWs l = [] := by simpa using hm
    rw [h1, hm2]
  · rw [if_neg hm]
    rw [List.reverse_append]
    simp [List.dropWhile_cons, show isJsWs ' ' = true from rfl]

theorem jsTrim_append_space (s : String) : jsTrim (s ++ " ") = jsTrim s := by
  unfold jsTrim
  rw [String.data_append]
  rw [show (" " : String).data = [' '] from rfl]
  rw [trimChars_append_space]

/-- The trimmed original is a prefix of trimming any extension, provided
the original has no edge whitespace. -/
theorem isPrefixOf_trimChars_append (l rest : List Char)
    (hhead : headNotWs l = true) (hlast : headNotWs l.reverse = true) :
    l.isPrefixOf (trimChars (l ++ rest)) = true := by
  cases l with
  | nil => simp [List.isPrefixOf]
  | cons a l' =>
    have ha : isJsWs a = false := by simpa [headNotWs] using hhead
    unfold trimChars
    have h1 : List.dropWhile isJsWs (a :: l' ++ rest) = a :: l' ++ rest := by
      simp [List.dropWhile_cons, ha]
    rw [h1]
    rw [List.reverse_append]
    rcases hrev : (a :: l').reverse with - | ⟨b, lr⟩
    · simp at hrev
    · have hb : isJsWs b = false := by
        have h3 := hlast
        rw [hrev] at h3
        simpa [headNotWs] using h3
      rw [dropWhile_ws_append]
      by_cases hre : (List.dropWhile isJsWs rest.reverse).isEmpty
      · rw [if_pos hre]
        have h2 : List.dropWhile isJsWs (b :: lr) = b :: lr := by
          simp [List.dropWhile_cons, hb]
        rw [h2, ← hrev]
        simp [ List.isPrefixOf_iff_prefix]
      · rw [if_neg hre]
        rw [List.reverse_append, ← hrev, List.reverse_reverse]
        rw [ List.isPrefixOf_iff_prefix]
        exact List.prefix_append _ _

/-- C8, counterexample to the claim as stated: for the whitespace-padded
Devanagari input `' कक '`, a failed generative call makes
`buildIndexableContent` return the *trimmed* text `'कक'`, not the original
raw text. -/
theorem C8_counterexample :
    buildIndexableContent (fun _ => Except.error ()) " कक " = "कक"
    ∧ (" कक " : String) ≠ "कक" := by
  refine ⟨by decide, by decide⟩

/-- C8 (amended): `buildIndexableContent` never propagates a generative
failure: whitespace-only input returns the empty string; input without a
Devanagari character is returned unchanged (whatever the engine does);
and for Devanagari input whose keyword-extraction call fails, the function
returns the trimmed original text — which is the original itself whenever
the original carries no edge whitespace. -/
theorem C8_enrichment_best_effort (gen : String → Except Unit String) (rawText : String) :
    ((jsTrim rawText).length = 0 → buildIndexableContent gen rawText = "")
    ∧ (¬(jsTrim rawText).length = 0 → containsHindi rawText = false →
        buildIndexableContent gen rawText = rawText)
    ∧ (¬(jsTrim rawText).length = 0 → containsHindi rawText = true →
        gen (String.mk (rawText.data.take 300)) = Except.error () →
        buildIndexableContent gen rawText = jsTrim rawText) := by
  refine ⟨?_, ?_, ?_⟩
  · intro h0
    unfold buildIndexableContent
    rw [if_pos h0]
  · intro h0 hh
    unfold buildIndexableContent
    rw [if_neg h0, hh]
    simp
  · intro h0 hh hgen
    unfold buildIndexableContent
    rw [if_neg h0, hh]
    simp only [if_true]
    unfold enrichHindiText
    rw [hgen]
    have h1 : rawText ++ " " ++ "" = rawText ++ " " := by
      apply String.ext
      simp [String.data_append]
    rw [h1, jsTrim_append_space]

/-- C8, witness: non-Devanagari text survives a failing engine unchanged,
and unpadded Devanagari text survives a failing engine as itself. -/
theorem C8_enrichment_best_effort_witness :
    (¬(jsTrim "hello there").length = 0 ∧ containsHindi "hello there" = false
      ∧ buildIndexableContent (fun _ => Except.error ()) "hello there" = "hello there")
    ∧ (¬(jsTrim "कक").length = 0 ∧ containsHindi "कक" = true
      ∧ buildIndexableContent (fun _ => Except.error ()) "कक" = jsTrim "कक") :=
  ⟨⟨by decide, by decide,
      (C8_enrichment_best_effort (fun _ => Except.error ()) "hello there").2.1
        (by decide) (by decide)⟩,
    ⟨by decide, by decide,
      (C8_enrichment_best_effort (fun _ => Except.error ()) "कक").2.2
        (by decide) (by decide) (by decide)⟩⟩

end Pinpoint

-- ═══ Claims C5 (corrected) and C7 (code bug) ══════════════════════════════

namespace Pinpoint

/-- C5, counterexample to the claim as stated: the extracted text of
fourteen Devanagari characters followed by a space has length 15, yet the
sync loop stores it verbatim without invoking the Enricher — the source
thresholds on the *trimmed* length (14 here), not on the text length. -/
theorem C5_counterexample :
    ("कककककककककककककक " : String).length = 15
    ∧ itemContent (fun _ => Except.ok "kka") (Except.ok "कककककककककककककक ")
        = "कककककककककककककक "
    ∧ itemContent (fun _ => Except.ok "kka") (Except.ok "कककककककककककककक ")
        ≠ buildIndexableContent (fun _ => Except.ok "kka") "कककककककककककककक " := by
  refine ⟨by decide, by decide, by decide⟩

/-- C5 (amended): the sync loop thresholds on the trimmed extracted text:
trimmed length ≥ 15 invokes the Enricher (`buildIndexableContent`);
trimmed length strictly between 0 and 15 stores the text verbatim (so any
14-character text with non-blank content is verbatim); trimmed length 0
stores the sentinel; and unpadded text of trimmed length ≥ 15 containing a
Devanagari run is stored enriched, equal to the trimmed concatenation of
the original text and the keyword string, with the original text as a
prefix. -/
theorem C5_threshold_on_trimmed_length (gen : String → Except Unit String) (raw : String) :
    (15 ≤ (jsTrim raw).length →
        itemContent gen (Except.ok raw) = buildIndexableContent gen raw)
    ∧ ((jsTrim raw).length < 15 → 0 < (jsTrim raw).length →
        itemContent gen (Except.ok raw) = raw)
    ∧ ((jsTrim raw).length = 0 → itemContent gen (Except.ok raw) = "image")
    ∧ (15 ≤ (jsTrim raw).length → jsTrim raw = raw → containsHindi raw = true →
        itemContent gen (Except.ok raw)
            = jsTrim (raw ++ " " ++ enrichHindiText gen raw)
          ∧ raw.data.isPrefixOf (itemContent gen (Except.ok raw)).data = true) := by
  have hred : itemContent gen (Except.ok raw)
      = (if 15 ≤ (jsTrim raw).length then buildIndexableContent gen raw
        else if 0 < (jsTrim raw).length then raw else "image") := rfl
  refine ⟨?_, ?_, ?_, ?_⟩
  · intro h15
    rw [hred, if_pos h15]
  · intro hlt hpos
    rw [hred, if_neg (by omega), if_pos hpos]
  · intro h0
    rw [hred, if_neg (by omega), if_neg (by omega)]
  · intro h15 htr hh
    have heq : itemContent gen (Except.ok raw)
        = jsTrim (raw ++ " " ++ enrichHindiText gen raw) := by
      rw [hred, if_pos h15]
      unfold buildIndexableContent
      rw [if_neg (by omega), hh]
      rw [if_pos rfl]
    refine ⟨heq, ?_⟩
    rw [heq]
    have hdata : trimChars raw.data = raw.data := by
      have h4 := congrArg String.data htr
      simpa [jsTrim] using h4
    have hedge : noEdgeWs raw.data = true := by
      rw [← hdata]; exact noEdgeWs_trimChars _
    rw [noEdgeWs, Bool.and_eq_true] at hedge
    have hd2 : (jsTrim (raw ++ " " ++ enrichHindiText gen raw)).data
        = trimChars (raw.data ++ ([' '] ++ (enrichHindiText gen raw).data)) := by
      simp [jsTrim, String.data_append]
    rw [hd2]
    exact isPrefixOf_trimChars_append _ _ hedge.1 hedge.2

/-- C5, witness: unpadded Devanagari text of length 15 is enriched with
the original as a prefix, and a 14-character text is stored verbatim. -/
theorem C5_threshold_on_trimmed_length_witness :
    (15 ≤ (jsTrim "ककककककककककककककक").length
      ∧ itemContent (fun _ => Except.ok "kka kw") (Except.ok "ककककककककककककककक")
          = jsTrim ("ककककककककककककककक" ++ " "
              ++ enrichHindiText (fun _ => Except.ok "kka kw") "ककककककककककककककक")
      ∧ ("ककककककककककककककक" : String).data.isPrefixOf
          (itemContent (fun _ => Except.ok "kka kw") (Except.ok "ककककककककककककककक")).data
            = true)
    ∧ ((jsTrim "aaaaaaaaaaaaaa").length < 15
      ∧ itemContent (fun _ => Except.ok "kka kw") (Except.ok "aaaaaaaaaaaaaa")
          = "aaaaaaaaaaaaaa") :=
  ⟨⟨by decide,
      ((C5_threshold_on_trimmed_length (fun _ => Except.ok "kka kw") "ककककककककककककककक").2.2.2
          (by decide) (by decide) (by decide)).1,
      ((C5_threshold_on_trimmed_length (fun _ => Except.ok "kka kw") "ककककककककककककककक").2.2.2
          (by decide) (by decide) (by decide)).2⟩,
    ⟨by decide,
      (C5_threshold_on_trimmed_length (fun _ => Except.ok "kka kw") "aaaaaaaaaaaaaa").2.1
        (by decide) (by decide)⟩⟩

/-- C7: evidence for the code bug.  In a sync over two items where the
first extraction returns no text and the second extraction throws, both
sentinel-content rows are stored with kind `TEXT` — the sync loop never
passes a `detectionType` argument, so the store's default `'TEXT'` applies
even to rows produced by empty extraction or extraction failure, contrary
to the declared `{TEXT, OBJECT, EMPTY}` classification (which the Smart
Clipboard flow does use). -/
theorem C7_sync_sentinel_rows_kind_text :
    ((performFullGallerySync
        ⟨["u1", "u2"],
          fun u => if u == "u2" then Except.error () else Except.ok "",
          fun _ => Except.error (), fun _ => false, fun _ => false⟩
        true none none emptyDB).db.rows.map
        (fun r => (r.content, r.detection_type)))
      = [("image", DetectionType.TEXT), ("image", DetectionType.TEXT)] := by
  decide

end Pinpoint

-- ═══ Sync-loop lemmas ═════════════════════════════════════════════════════

namespace Pinpoint

theorem processList_cons (env : SyncEnv) (fts : Bool) (uri : String) (rest : List String)
    (db : DB) :
    processList env fts (uri :: rest) db
      = processList env fts rest (processItem env fts db uri) := rfl

theorem processList_append (env : SyncEnv) (fts : Bool) (l₁ l₂ : List String) (db : DB) :
    processList env fts (l₁ ++ l₂) db
      = processList env fts l₂ (processList env fts l₁ db) := by
  simp [processList, List.foldl_append]

/-- A page during which no cancellation check fires processes every item. -/
theorem processPage_no_cancel (env : SyncEnv) (fts : Bool) :
    ∀ (edges : List String) (db : DB) (n : Nat) (tr : List String),
      (∀ i, i < edges.length → env.cancel (n + i) = false) →
      processPage env fts edges db n tr
        = (false, processList env fts edges db, n + edges.length, tr ++ edges) := by
  intro edges
  induction edges with
  | nil => intro db n tr _; simp [processPage, processList]
  | cons uri rest ih =>
    intro db n tr h
    have hc : env.cancel n = false := by simpa using h 0 (by simp)
    rw [processPage, if_neg (by simp [hc])]
    rw [ih (processItem env fts db uri) (n + 1) (tr ++ [uri])
      (fun i hi => by
        have h2 := h (i + 1) (by simpa using Nat.succ_lt_succ hi)
        simpa [Nat.add_assoc, Nat.add_comm 1 i] using h2)]
    rw [processList_cons]
    have e3 : n + 1 + rest.length = n + (uri :: rest).length := by
      simp; omega
    rw [e3]
    simp

/-- General shape of one page's processing: some prefix of the page is
processed, and the cancellation flag is returned exactly when the prefix
is proper. -/
theorem processPage_spec (env : SyncEnv) (fts : Bool) :
    ∀ (edges : List String) (db : DB) (n : Nat) (tr : List String),
      ∃ m, m ≤ edges.length
        ∧ processPage env fts edges db n tr
            = (decide (m < edges.length), processList env fts (edges.take m) db,
                n + m, tr ++ edges.take m) := by
  intro edges
  induction edges with
  | nil =>
    intro db n tr
    exact ⟨0, by simp, by simp [processPage, processList]⟩
  | cons uri rest ih =>
    intro db n tr
    by_cases hc : env.cancel n
    · refine ⟨0, by simp, ?_⟩
      rw [processPage, if_pos hc]
      simp [processList]
    · obtain ⟨m', hm', heq⟩ := ih (processItem env fts db uri) (n + 1) (tr ++ [uri])
      refine ⟨m' + 1, by simpa using Nat.succ_le_succ hm', ?_⟩
      rw [processPage, if_neg (by simp [hc]), heq]
      rw [List.take_succ_cons, processList_cons]
      have e3 : n + 1 + m' = n + (m' + 1) := by omega
      rw [e3]
      simp [Nat.succ_lt_succ_iff]

end Pinpoint

namespace Pinpoint

theorem syncLoop_succ (env : SyncEnv) (fts : Bool) (fuel : Nat) (after persisted : Option Nat)
    (db : DB) (total : Nat) (tr : List String) :
    syncLoop env fts (fuel + 1) after persisted db total tr
      = if env.cancel total then ⟨Except.ok (total, true), persisted, tr, db⟩
        else
          if env.fetchFail (after.getD 0) then ⟨Except.error (), after, tr, db⟩
          else
            if ((env.gallery.drop (after.getD 0)).take 10).isEmpty then
              ⟨Except.ok (total, false), none, tr, db⟩
            else
              match processPage env fts ((env.gallery.drop (after.getD 0)).take 10) db total tr with
              | (true, db', n', tr') => ⟨Except.ok (n', true), after, tr', db'⟩
              | (false, db', n', tr') =>
                if (after.getD 0) + 10 < env.gallery.length then
                  syncLoop env fts fuel (some ((after.getD 0) + ((env.gallery.drop (after.getD 0)).take 10).length))
                    (some ((after.getD 0) + ((env.gallery.drop (after.getD 0)).take 10).length)) db' n' tr'
                else ⟨Except.ok (n', false), none, tr', db'⟩ := rfl


/-- A run that returns with the cancelled flag clear (normal completion)
leaves no persisted cursor behind, and reports as processed exactly the
number of progress notifications it emitted beyond those already
accounted for on entry. -/
theorem syncLoop_complete_clears (env : SyncEnv) (fts : Bool) :
    ∀ (fuel : Nat) (after persisted : Option Nat) (db : DB) (total : Nat) (tr : List String)
      (p : Nat × Bool),
      (syncLoop env fts fuel after persisted db total tr).result = Except.ok p →
      p.2 = false →
      (syncLoop env fts fuel after persisted db total tr).persisted = none
        ∧ (syncLoop env fts fuel after persisted db total tr).trace.length + total
            = p.1 + tr.length := by
  intro fuel
  induction fuel with
  | zero =>
    intro after persisted db total tr p hres _
    simp [syncLoop] at hres
  | succ f ih =>
    intro after persisted db total tr p hres hp2
    rw [syncLoop_succ] at hres ⊢
    by_cases h1 : env.cancel total
    · rw [if_pos h1] at hres ⊢
      injection hres with h3
      rw [← h3] at hp2
      simp at hp2
    · rw [if_neg h1] at hres ⊢
      by_cases h2 : env.fetchFail (after.getD 0)
      · rw [if_pos h2] at hres ⊢
        simp at hres
      · rw [if_neg h2] at hres ⊢
        by_cases h3 : ((env.gallery.drop (after.getD 0)).take 10).isEmpty
        · rw [if_pos h3] at hres ⊢
          injection hres with h4
          rw [← h4]
          simp
          omega
        · rw [if_neg h3] at hres ⊢
          obtain ⟨m, hm, hspec⟩ := processPage_spec env fts
            ((env.gallery.drop (after.getD 0)).take 10) db total tr
          rw [hspec] at hres ⊢
          by_cases hc2 : m < ((env.gallery.drop (after.getD 0)).take 10).length
          · have hd : decide (m < ((env.gallery.drop (after.getD 0)).take 10).length) = true := by
              simpa using hc2
            rw [hd] at hres ⊢
            dsimp only at hres
            injection hres with h5
            rw [← h5] at hp2
            simp at hp2
          · have hd : decide (m < ((env.gallery.drop (after.getD 0)).take 10).length) = false := by
              simpa using hc2
            rw [hd] at hres ⊢
            dsimp only at hres ⊢
            have ht : (((env.gallery.drop (after.getD 0)).take 10).take m).length = m := by
              rw [List.length_take]
              exact Nat.min_eq_left hm
            have hlen : (tr ++ ((env.gallery.drop (after.getD 0)).take 10).take m).length
                = tr.length + m := by
              rw [List.length_append, ht]
            by_cases h4 : (after.getD 0) + 10 < env.gallery.length
            · rw [if_pos h4] at hres ⊢
              obtain ⟨hpers, hcount⟩ := ih _ _ _ _ _ p hres hp2
              refine ⟨hpers, ?_⟩
              rw [hlen] at hcount
              omega
            · rw [if_neg h4] at hres ⊢
              injection hres with h5
              have hp1 : p.1 = total + m := by rw [← h5]
              refine ⟨rfl, ?_⟩
              rw [hlen, hp1]
              omega

end Pinpoint

namespace Pinpoint

/-- With cancellation never signalled and the enumerator never failing, a
run from any position processes every remaining item in enumerator order,
reports them all, clears the cursor and completes. -/
theorem syncLoop_no_cancel_run (env : SyncEnv) (fts : Bool)
    (hc : ∀ n, env.cancel n = false) (hf : ∀ n, env.fetchFail n = false) :
    ∀ (fuel : Nat) (after persisted : Option Nat) (db : DB) (total : Nat) (tr : List String),
      1 ≤ fuel →
      env.gallery.length < after.getD 0 + 10 * fuel →
      syncLoop env fts fuel after persisted db total tr
        = ⟨Except.ok (total + (env.gallery.length - after.getD 0), false), none,
            tr ++ (env.gallery.drop (after.getD 0)),
            processList env fts (env.gallery.drop (after.getD 0)) db⟩ := by
  intro fuel
  induction fuel with
  | zero =>
    intro after persisted db total tr h1 _
    omega
  | succ f ih =>
    intro after persisted db total tr h1 h2
    rw [syncLoop_succ]
    rw [if_neg (by simp [hc])]
    rw [if_neg (by simp [hf])]
    by_cases hemp : ((env.gallery.drop (after.getD 0)).take 10).isEmpty
    · rw [if_pos hemp]
      have hdrop : env.gallery.drop (after.getD 0) = [] := by
        rcases List.take_eq_nil_iff.1 (List.isEmpty_iff.1 hemp) with h | h
        · omega
        · exact h
      have hle : env.gallery.length ≤ after.getD 0 := by
        have h4 := congrArg List.length hdrop
        simp [List.length_drop] at h4
        omega
      have h0 : env.gallery.length - after.getD 0 = 0 := by omega
      rw [h0, hdrop]
      simp [processList]
    · rw [if_neg hemp]
      have hlt : after.getD 0 < env.gallery.length := by
        by_contra hge
        have hdrop : env.gallery.drop (after.getD 0) = [] :=
          List.drop_eq_nil_of_le (by omega)
        rw [hdrop] at hemp
        simp at hemp
      rw [processPage_no_cancel env fts _ db total tr (fun i _ => hc _)]
      dsimp only
      by_cases hnext : (after.getD 0) + 10 < env.gallery.length
      · rw [if_pos hnext]
        have hel : ((env.gallery.drop (after.getD 0)).take 10).length = 10 := by
          rw [List.length_take, List.length_drop]
          omega
        rw [hel]
        rw [ih (some (after.getD 0 + 10)) (some (after.getD 0 + 10)) _ _ _
          (by omega) (by simp only [Option.getD_some]; omega)]
        have q1 : total + 10
              + (env.gallery.length - (some (after.getD 0 + 10) : Option Nat).getD 0)
            = total + (env.gallery.length - after.getD 0) := by
          simp only [Option.getD_some]
          omega
        have q2 : env.gallery.drop ((some (after.getD 0 + 10) : Option Nat).getD 0)
            = (env.gallery.drop (after.getD 0)).drop 10 := by
          simp [List.drop_drop, Nat.add_comm]
        have q3 : (env.gallery.drop (after.getD 0)).take 10
              ++ (env.gallery.drop (after.getD 0)).drop 10
            = env.gallery.drop (after.getD 0) := List.take_append_drop _ _
        rw [q1, q2]
        rw [show (tr ++ (env.gallery.drop (after.getD 0)).take 10)
              ++ (env.gallery.drop (after.getD 0)).drop 10
            = tr ++ env.gallery.drop (after.getD 0) from by rw [List.append_assoc, q3]]
        rw [show processList env fts ((env.gallery.drop (after.getD 0)).drop 10)
              (processList env fts ((env.gallery.drop (after.getD 0)).take 10) db)
            = processList env fts (env.gallery.drop (after.getD 0)) db from by
          rw [← processList_append, q3]]
      · rw [if_neg hnext]
        have hlen2 : ((env.gallery.drop (after.getD 0)).take 10).length
            = env.gallery.length - after.getD 0 := by
          rw [List.length_take, List.length_drop]
          omega
        have hedges : (env.gallery.drop (after.getD 0)).take 10
            = env.gallery.drop (after.getD 0) := by
          apply List.take_of_length_le
          rw [List.length_drop]
          omega
        rw [hlen2, hedges]

end Pinpoint

-- ═══ Claims C9 and C6 ═════════════════════════════════════════════════════

namespace Pinpoint

/-- C9: every run that returns normally (the enumerator reported no more
pages, or a page came back empty) has cleared the persisted cursor — no
resumable cursor remains in durable storage — and reports as `processed`
exactly the number of items for which progress was emitted. -/
theorem C9_completion_clears_cursor (env : SyncEnv) (fts : Bool)
    (resumeFrom persisted0 : Option Nat) (db0 : DB) (p : Nat × Bool)
    (hres : (performFullGallerySync env fts resumeFrom persisted0 db0).result = Except.ok p)
    (hflag : p.2 = false) :
    (performFullGallerySync env fts resumeFrom persisted0 db0).persisted = none
    ∧ p.1 = (performFullGallerySync env fts resumeFrom persisted0 db0).trace.length := by
  have h := syncLoop_complete_clears env fts (env.gallery.length + 1)
    (resumeFrom <|> persisted0) persisted0 db0 0 [] p hres hflag
  refine ⟨h.1, ?_⟩
  have h2 := h.2
  simpa using h2.symm

/-- C9, witness: a 12-item gallery with no cancellation completes with
`{processed := 12, wasCancelled := false}` and no persisted cursor. -/
theorem C9_completion_clears_cursor_witness :
    ((performFullGallerySync
        ⟨["u1","u2","u3","u4","u5","u6","u7","u8","u9","u10","u11","u12"],
          fun _ => Except.ok "", fun _ => Except.error (), fun _ => false, fun _ => false⟩
        true none none emptyDB).result = Except.ok (12, false))
    ∧ ((performFullGallerySync
        ⟨["u1","u2","u3","u4","u5","u6","u7","u8","u9","u10","u11","u12"],
          fun _ => Except.ok "", fun _ => Except.error (), fun _ => false, fun _ => false⟩
        true none none emptyDB).persisted = none
      ∧ (12 : Nat) = (performFullGallerySync
          ⟨["u1","u2","u3","u4","u5","u6","u7","u8","u9","u10","u11","u12"],
            fun _ => Except.ok "", fun _ => Except.error (), fun _ => false, fun _ => false⟩
          true none none emptyDB).trace.length) :=
  ⟨by decide,
    C9_completion_clears_cursor _ true none none emptyDB (12, false) (by decide) (by decide)⟩

theorem processItem_preserves_sentinelRow (env : SyncEnv) (fts : Bool) (db : DB)
    (v u : String) (h : sentinelRowFor u db) :
    sentinelRowFor u (processItem env fts db v) := by
  unfold processItem
  by_cases hidx : isFileIndexed v db
  · rw [if_pos hidx]; exact h
  · rw [if_neg hidx, indexDocument_eq]
    obtain ⟨r, hr, h1, h2, h3, h4⟩ := h
    by_cases hv : v = u
    · exfalso
      apply hidx
      unfold isFileIndexed
      rw [List.any_eq_true]
      exact ⟨r, hr, by simp [h1, hv]⟩
    · refine ⟨r, ?_, h1, h2, h3, h4⟩
      apply List.mem_append_left
      apply List.mem_filter.2
      refine ⟨hr, ?_⟩
      simp [h1, bne]
      exact fun hh => hv hh.symm

theorem processList_preserves_sentinelRow (env : SyncEnv) (fts : Bool) (u : String) :
    ∀ (items : List String) (db : DB), sentinelRowFor u db →
      sentinelRowFor u (processList env fts items db) := by
  intro items
  induction items with
  | nil => intro db h; exact h
  | cons v rest ih =>
    intro db h
    rw [processList_cons]
    exact ih _ (processItem_preserves_sentinelRow env fts db v u h)

theorem processItem_stores_sentinel (env : SyncEnv) (fts : Bool) (db : DB) (u : String)
    (herr : env.ocr u = Except.error ()) (hnew : isFileIndexed u db = false) :
    sentinelRowFor u (processItem env fts db u) := by
  unfold processItem
  rw [if_neg (by simp [hnew]), indexDocument_eq]
  refine ⟨⟨db.nextId, jsTrim (itemContent env.gen (env.ocr u)), u, "Gallery Sync",
      DetectionType.TEXT⟩,
    List.mem_append_right _ (List.mem_singleton.2 rfl), rfl, ?_, rfl, rfl⟩
  rw [herr]
  show jsTrim "image" = "image"
  decide

theorem isFileIndexed_processItem_ne (env : SyncEnv) (fts : Bool) (db : DB) (v u : String)
    (hv : ¬v = u) (h : isFileIndexed u db = false) :
    isFileIndexed u (processItem env fts db v) = false := by
  unfold processItem
  by_cases hidx : isFileIndexed v db
  · rw [if_pos hidx]; exact h
  · rw [if_neg hidx, indexDocument_eq]
    unfold isFileIndexed at h ⊢
    rw [List.any_eq_false] at h ⊢
    intro r hr
    rcases List.mem_append.1 hr with hl | hnew
    · exact h r (List.mem_filter.1 hl).1
    · have hr2 := List.mem_singleton.1 hnew
      subst hr2
      simp [hv]

theorem processList_stores_sentinel (env : SyncEnv) (fts : Bool) (u : String)
    (herr : env.ocr u = Except.error ()) :
    ∀ (items : List String) (db : DB), u ∈ items → isFileIndexed u db = false →
      sentinelRowFor u (processList env fts items db) := by
  intro items
  induction items with
  | nil => intro db hmem _; exact absurd hmem (List.not_mem_nil u)
  | cons v rest ih =>
    intro db hmem hnew
    rw [processList_cons]
    by_cases hv : v = u
    · subst hv
      exact processList_preserves_sentinelRow env fts v rest _
        (processItem_stores_sentinel env fts db v herr hnew)
    · have hu' : u ∈ rest := by
        rcases List.mem_cons.1 hmem with h | h
        · exact absurd h.symm hv
        · exact h
      exact ih _ hu' (isFileIndexed_processItem_ne env fts db v u hv hnew)

/-- C6: an extraction failure for one item is non-fatal — the run still
processes every item and completes — and the failing item's path receives
the sentinel content `'image'` via upsert (category `'Gallery Sync'`,
default kind `TEXT`). -/
theorem C6_extraction_failure_nonfatal (env : SyncEnv) (fts : Bool) (db0 : DB) (u : String)
    (hc : ∀ n, env.cancel n = false) (hf : ∀ n, env.fetchFail n = false)
    (hu : u ∈ env.gallery) (herr : env.ocr u = Except.error ())
    (hnew : isFileIndexed u db0 = false) :
    (performFullGallerySync env fts none none db0).result
        = Except.ok (env.gallery.length, false)
    ∧ sentinelRowFor u (performFullGallerySync env fts none none db0).db := by
  have heq : performFullGallerySync env fts none none db0
      = syncLoop env fts (env.gallery.length + 1) none none db0 0 [] := rfl
  have hrun := syncLoop_no_cancel_run env fts hc hf (env.gallery.length + 1) none none db0 0 []
    (by omega) (by simp; omega)
  rw [heq, hrun]
  constructor
  · simp
  · simp only [Option.getD_none, List.drop_zero]
    exact processList_stores_sentinel env fts u herr env.gallery db0 hu hnew

/-- C6, witness: in a two-item gallery where the second item's extraction
throws, the run completes over both items and stores the sentinel row for
the failing path. -/
theorem C6_extraction_failure_nonfatal_witness :
    (("u2" : String) ∈ ["u1", "u2"]
      ∧ (performFullGallerySync
          ⟨["u1", "u2"], fun v => if v == "u2" then Except.error () else Except.ok "hello",
            fun _ => Except.error (), fun _ => false, fun _ => false⟩
          true none none emptyDB).result = Except.ok (2, false))
    ∧ sentinelRowFor "u2" (performFullGallerySync
        ⟨["u1", "u2"], fun v => if v == "u2" then Except.error () else Except.ok "hello",
          fun _ => Except.error (), fun _ => false, fun _ => false⟩
        true none none emptyDB).db :=
  ⟨⟨by decide,
      (C6_extraction_failure_nonfatal _ true emptyDB "u2"
        (fun _ => rfl) (fun _ => rfl) (by decide) (by decide) (by decide)).1⟩,
    (C6_extraction_failure_nonfatal _ true emptyDB "u2"
      (fun _ => rfl) (fun _ => rfl) (by decide) (by decide) (by decide)).2⟩

end Pinpoint

-- ═══ Claim C3 ═════════════════════════════════════════════════════════════

namespace Pinpoint

/-- Cursor invariant of the sync loop: starting with the persisted cursor
equal to the loop cursor, the items reported are an initial segment of
the remaining gallery, and every cancelled or error exit leaves the
persisted cursor at a whole-pages boundary — never inside a partially
processed page (at most 9 items of the current page may have been
processed beyond the persisted boundary). -/
theorem syncLoop_cursor_invariant (env : SyncEnv) (fts : Bool) :
    ∀ (fuel : Nat) (after : Option Nat) (db : DB) (total : Nat) (tr : List String),
      ∃ k, k ≤ env.gallery.length - after.getD 0
        ∧ (syncLoop env fts fuel after after db total tr).trace
            = tr ++ (env.gallery.drop (after.getD 0)).take k
        ∧ (∀ p, (syncLoop env fts fuel after after db total tr).result = Except.ok p →
            p.1 = total + k)
        ∧ (∀ p, (syncLoop env fts fuel after after db total tr).result = Except.ok p →
            p.2 = true →
            ∃ j, ((syncLoop env fts fuel after after db total tr).persisted).getD 0
                = after.getD 0 + 10 * j
              ∧ 10 * j ≤ k ∧ k < 10 * j + 10)
        ∧ ((syncLoop env fts fuel after after db total tr).result = Except.error () →
            ∃ j, ((syncLoop env fts fuel after after db total tr).persisted).getD 0
                = after.getD 0 + 10 * j
              ∧ k = 10 * j) := by
  intro fuel
  induction fuel with
  | zero =>
    intro after db total tr
    refine ⟨0, by omega, by simp [syncLoop], ?_, ?_, ?_⟩
    · intro p hp; simp [syncLoop] at hp
    · intro p hp; simp [syncLoop] at hp
    · intro _; exact ⟨0, by simp [syncLoop], by omega⟩
  | succ f ih =>
    intro after db total tr
    by_cases h1 : env.cancel total
    · refine ⟨0, by omega, ?_, ?_, ?_, ?_⟩
      · rw [syncLoop_succ, if_pos h1]; simp
      · intro p hp
        rw [syncLoop_succ, if_pos h1] at hp
        injection hp with h2
        rw [← h2]
        simp
      · intro p hp _
        rw [syncLoop_succ, if_pos h1] at hp ⊢
        exact ⟨0, by simp, by omega, by omega⟩
      · intro hp
        rw [syncLoop_succ, if_pos h1] at hp
        simp at hp
    · by_cases h2 : env.fetchFail (after.getD 0)
      · refine ⟨0, by omega, ?_, ?_, ?_, ?_⟩
        · rw [syncLoop_succ, if_neg h1, if_pos h2]; simp
        · intro p hp
          rw [syncLoop_succ, if_neg h1, if_pos h2] at hp
          simp at hp
        · intro p hp _
          rw [syncLoop_succ, if_neg h1, if_pos h2] at hp
          simp at hp
        · intro _
          rw [syncLoop_succ, if_neg h1, if_pos h2]
          exact ⟨0, by simp, by omega⟩
      · by_cases h3 : ((env.gallery.drop (after.getD 0)).take 10).isEmpty
        · refine ⟨0, by omega, ?_, ?_, ?_, ?_⟩
          · rw [syncLoop_succ, if_neg h1, if_neg h2, if_pos h3]; simp
          · intro p hp
            rw [syncLoop_succ, if_neg h1, if_neg h2, if_pos h3] at hp
            injection hp with h4
            rw [← h4]
            simp
          · intro p hp hp2
            rw [syncLoop_succ, if_neg h1, if_neg h2, if_pos h3] at hp
            injection hp with h4
            rw [← h4] at hp2
            simp at hp2
          · intro hp
            rw [syncLoop_succ, if_neg h1, if_neg h2, if_pos h3] at hp
            simp at hp
        · obtain ⟨m, hm, hspec⟩ := processPage_spec env fts
            ((env.gallery.drop (after.getD 0)).take 10) db total tr
          have hlentake : ((env.gallery.drop (after.getD 0)).take 10).length
              ≤ env.gallery.length - after.getD 0 := by
            rw [List.length_take, List.length_drop]
            omega
          by_cases hc2 : m < ((env.gallery.drop (after.getD 0)).take 10).length
          · have hd : decide (m < ((env.gallery.drop (after.getD 0)).take 10).length)
                = true := by simpa using hc2
            have hout : syncLoop env fts (f + 1) after after db total tr
                = ⟨Except.ok (total + m, true), after,
                    tr ++ ((env.gallery.drop (after.getD 0)).take 10).take m,
                    processList env fts (((env.gallery.drop (after.getD 0)).take 10).take m) db⟩ := by
              rw [syncLoop_succ, if_neg h1, if_neg h2, if_neg h3, hspec, hd]
            have hlen10 : ((env.gallery.drop (after.getD 0)).take 10).length ≤ 10 := by
              rw [List.length_take]
              omega
            have hm10 : m ≤ 10 := by omega
            refine ⟨m, by omega, ?_, ?_, ?_, ?_⟩
            · rw [hout]
              rw [List.take_take, Nat.min_eq_left hm10]
            · intro p hp
              rw [hout] at hp
              injection hp with h4
              rw [← h4]
            · intro p hp _
              rw [hout] at hp ⊢
              exact ⟨0, by simp, by omega, by omega⟩
            · intro hp
              rw [hout] at hp
              simp at hp
          · have hd : decide (m < ((env.gallery.drop (after.getD 0)).take 10).length)
                = false := by simpa using hc2
            have hmeq : m = ((env.gallery.drop (after.getD 0)).take 10).length := by omega
            by_cases h4 : (after.getD 0) + 10 < env.gallery.length
            · have hel : ((env.gallery.drop (after.getD 0)).take 10).length = 10 := by
                rw [List.length_take, List.length_drop]
                omega
              have hm10 : m = 10 := by omega
              have htakem : ((env.gallery.drop (after.getD 0)).take 10).take m
                  = (env.gallery.drop (after.getD 0)).take 10 := by
                rw [hmeq, List.take_length]
              have hout : syncLoop env fts (f + 1) after after db total tr
                  = syncLoop env fts f (some (after.getD 0 + 10)) (some (after.getD 0 + 10))
                      (processList env fts ((env.gallery.drop (after.getD 0)).take 10) db)
                      (total + m)
                      (tr ++ (env.gallery.drop (after.getD 0)).take 10) := by
                rw [syncLoop_succ, if_neg h1, if_neg h2, if_neg h3, hspec, hd]
                dsimp only
                rw [if_pos h4, hel, htakem]
              obtain ⟨k', hk'b, htr', hok', hcanc', herr'⟩ :=
                ih (some (after.getD 0 + 10))
                  (processList env fts ((env.gallery.drop (after.getD 0)).take 10) db)
                  (total + m) (tr ++ (env.gallery.drop (after.getD 0)).take 10)
              have hsplit : (env.gallery.drop (after.getD 0)).take (10 + k')
                  = (env.gallery.drop (after.getD 0)).take 10
                    ++ (env.gallery.drop (after.getD 0 + 10)).take k' := by
                rw [List.take_add]
                congr 1
                rw [List.drop_drop]
              refine ⟨10 + k', ?_, ?_, ?_, ?_, ?_⟩
              · simp only [Option.getD_some] at hk'b
                omega
              · rw [hout, htr', hsplit]
                simp [List.append_assoc]
              · intro p hp
                rw [hout] at hp
                have := hok' p hp
                omega
              · intro p hp hptrue
                rw [hout] at hp ⊢
                obtain ⟨j', hj1, hj2, hj3⟩ := hcanc' p hp hptrue
                refine ⟨j' + 1, ?_, by omega, by omega⟩
                simp only [Option.getD_some] at hj1
                rw [hj1]
                omega
              · intro hp
                rw [hout] at hp ⊢
                obtain ⟨j', hj1, hj2⟩ := herr' hp
                refine ⟨j' + 1, ?_, by omega⟩
                simp only [Option.getD_some] at hj1
                rw [hj1]
                omega
            · have htakem : ((env.gallery.drop (after.getD 0)).take 10).take m
                  = (env.gallery.drop (after.getD 0)).take 10 := by
                rw [hmeq, List.take_length]
              have hout : syncLoop env fts (f + 1) after after db total tr
                  = ⟨Except.ok (total + m, false), none,
                      tr ++ (env.gallery.drop (after.getD 0)).take 10,
                      processList env fts ((env.gallery.drop (after.getD 0)).take 10) db⟩ := by
                rw [syncLoop_succ, if_neg h1, if_neg h2, if_neg h3, hspec, hd]
                dsimp only
                rw [if_neg h4, htakem]
              have hA : (env.gallery.drop (after.getD 0)).take 10
                  = env.gallery.drop (after.getD 0) :=
                List.take_of_length_le (by rw [List.length_drop]; omega)
              have hmeq2 : m = env.gallery.length - after.getD 0 := by
                rw [hA] at hmeq
                rw [hmeq, List.length_drop]
              have hB : (env.gallery.drop (after.getD 0)).take m
                  = env.gallery.drop (after.getD 0) :=
                List.take_of_length_le (by rw [List.length_drop]; omega)
              refine ⟨m, by omega, ?_, ?_, ?_, ?_⟩
              · rw [hout, hA, hB]
              · intro p hp
                rw [hout] at hp
                injection hp with h5
                rw [← h5]
              · intro p hp hptrue
                rw [hout] at hp
                injection hp with h5
                rw [← h5] at hptrue
                simp at hptrue
              · intro hp
                rw [hout] at hp
                simp at hp

end Pinpoint

namespace Pinpoint

/-- C3: at every exit of `performFullGallerySync` started the way the app
starts it (no cursor override, or an override equal to the stored cursor),
the persisted cursor sits at the boundary after the last fully processed
page, never inside a partially processed page: a normal completion clears
it; a cancelled exit leaves it a whole number of pages past the start
position with fewer than 10 items processed beyond it; an error exit (the
enumerator throwing, re-raised by the catch block) leaves it exactly at
the last completed page boundary; and the progress trace is always an
initial segment of the gallery from the start position, so the next run
from the saved cursor resumes at that page boundary. -/
theorem C3_cursor_at_page_boundary (env : SyncEnv) (fts : Bool) (db0 : DB)
    (resumeFrom persisted0 : Option Nat)
    (hres : resumeFrom = none ∨ resumeFrom = persisted0) :
    (∀ p, (performFullGallerySync env fts resumeFrom persisted0 db0).result = Except.ok p →
        p.2 = false →
        (performFullGallerySync env fts resumeFrom persisted0 db0).persisted = none)
    ∧ (∀ p, (performFullGallerySync env fts resumeFrom persisted0 db0).result = Except.ok p →
        p.2 = true →
        ∃ j, ((performFullGallerySync env fts resumeFrom persisted0 db0).persisted).getD 0
            = persisted0.getD 0 + 10 * j
          ∧ 10 * j ≤ (performFullGallerySync env fts resumeFrom persisted0 db0).trace.length
          ∧ (performFullGallerySync env fts resumeFrom persisted0 db0).trace.length
              < 10 * j + 10)
    ∧ ((performFullGallerySync env fts resumeFrom persisted0 db0).result = Except.error () →
        ∃ j, ((performFullGallerySync env fts resumeFrom persisted0 db0).persisted).getD 0
            = persisted0.getD 0 + 10 * j
          ∧ (performFullGallerySync env fts resumeFrom persisted0 db0).trace.length = 10 * j)
    ∧ (performFullGallerySync env fts resumeFrom persisted0 db0).trace
        = (env.gallery.drop (persisted0.getD 0)).take
            (performFullGallerySync env fts resumeFrom persisted0 db0).trace.length := by
  have hstart : (resumeFrom <|> persisted0) = persisted0 := by
    rcases hres with h | h
    · rw [h]; cases persisted0 <;> rfl
    · rw [h]; cases persisted0 <;> rfl
  have heq : performFullGallerySync env fts resumeFrom persisted0 db0
      = syncLoop env fts (env.gallery.length + 1) persisted0 persisted0 db0 0 [] := by
    unfold performFullGallerySync
    rw [hstart]
  obtain ⟨k, hkb, htr, hok, hcanc, herr⟩ :=
    syncLoop_cursor_invariant env fts (env.gallery.length + 1) persisted0 db0 0 []
  have hklen : (syncLoop env fts (env.gallery.length + 1) persisted0 persisted0
      db0 0 []).trace.length = k := by
    rw [htr]
    simp only [List.nil_append, List.length_take, List.length_drop]
    omega
  refine ⟨?_, ?_, ?_, ?_⟩
  · intro p hp hflag
    rw [heq] at hp ⊢
    exact (syncLoop_complete_clears env fts _ _ _ _ _ _ p hp hflag).1
  · intro p hp hflag
    rw [heq] at hp ⊢
    rw [hklen]
    exact hcanc p hp hflag
  · intro hp
    rw [heq] at hp ⊢
    rw [hklen]
    exact herr hp
  · rw [heq, hklen, htr]
    simp

/-- C3, witness: a 12-item gallery cancelled after 5 items (mid-page)
exits with a persisted cursor at a page boundary. -/
theorem C3_cursor_at_page_boundary_witness :
    ((performFullGallerySync
        ⟨["u1","u2","u3","u4","u5","u6","u7","u8","u9","u10","u11","u12"],
          fun _ => Except.ok "", fun _ => Except.error (), fun _ => false,
          fun n => decide (5 ≤ n)⟩
        true none none emptyDB).result = Except.ok (5, true))
    ∧ (∃ j, ((performFullGallerySync
          ⟨["u1","u2","u3","u4","u5","u6","u7","u8","u9","u10","u11","u12"],
            fun _ => Except.ok "", fun _ => Except.error (), fun _ => false,
            fun n => decide (5 ≤ n)⟩
          true none none emptyDB).persisted).getD 0
            = (none : Option Nat).getD 0 + 10 * j
        ∧ 10 * j ≤ (performFullGallerySync
            ⟨["u1","u2","u3","u4","u5","u6","u7","u8","u9","u10","u11","u12"],
              fun _ => Except.ok "", fun _ => Except.error (), fun _ => false,
              fun n => decide (5 ≤ n)⟩
            true none none emptyDB).trace.length
        ∧ (performFullGallerySync
            ⟨["u1","u2","u3","u4","u5","u6","u7","u8","u9","u10","u11","u12"],
              fun _ => Except.ok "", fun _ => Except.error (), fun _ => false,
              fun n => decide (5 ≤ n)⟩
            true none none emptyDB).trace.length < 10 * j + 10) :=
  ⟨by decide,
    (C3_cursor_at_page_boundary
        ⟨["u1","u2","u3","u4","u5","u6","u7","u8","u9","u10","u11","u12"],
          fun _ => Except.ok "", fun _ => Except.error (), fun _ => false,
          fun n => decide (5 ≤ n)⟩
        true emptyDB none none (Or.inl rfl)).2.1 (5, true) (by decide) (by decide)⟩

end Pinpoint

-- ═══ Claim C4 (corrected) ═════════════════════════════════════════════════

namespace Pinpoint

/-- A run whose cancellation flag becomes observable once `10 * k` items
have been processed (a page boundary) is cancelled at exactly that
boundary: it reports `10 * k` processed items, persists the cursor
`10 * k` and has reported exactly the first `10 * k` gallery items. -/
theorem syncLoop_cancel_at_boundary (env : SyncEnv) (fts : Bool) (k : Nat)
    (hc : ∀ n, env.cancel n = decide (10 * k ≤ n))
    (hf : ∀ n, env.fetchFail n = false)
    (hk : 1 ≤ k) (hlen : 10 * k < env.gallery.length) :
    ∀ (fuel j : Nat) (after : Option Nat) (db : DB),
      j ≤ k → after.getD 0 = 10 * j → k - j < fuel →
      (syncLoop env fts fuel after after db (10 * j) (env.gallery.take (10 * j))).result
          = Except.ok (10 * k, true)
      ∧ (syncLoop env fts fuel after after db (10 * j) (env.gallery.take (10 * j))).persisted
          = some (10 * k)
      ∧ (syncLoop env fts fuel after after db (10 * j) (env.gallery.take (10 * j))).trace
          = env.gallery.take (10 * k) := by
  intro fuel
  induction fuel with
  | zero =>
    intro j after db _ _ hfuel
    omega
  | succ f ih =>
    intro j after db hj hafter hfuel
    by_cases hjk : j = k
    · subst hjk
      have hcanc : env.cancel (10 * j) = true := by
        rw [hc]
        simp
      have hsome : after = some (10 * j) := by
        cases after with
        | none => simp at hafter; omega
        | some a => simp at hafter; rw [hafter]
      rw [syncLoop_succ, if_pos hcanc, hsome]
      exact ⟨rfl, rfl, rfl⟩
    · have hjlt : j < k := by omega
      have hcanc : env.cancel (10 * j) = false := by
        rw [hc]
        simp
        omega
      have hff : env.fetchFail (after.getD 0) = false := hf _
      have hlen10 : ((env.gallery.drop (after.getD 0)).take 10).length = 10 := by
        rw [List.length_take, List.length_drop, hafter]
        omega
      have hemp : ((env.gallery.drop (after.getD 0)).take 10).isEmpty = false := by
        rcases hee : (env.gallery.drop (after.getD 0)).take 10 with - | ⟨x, xs⟩
        · rw [hee] at hlen10
          simp at hlen10
        · simp
      rw [syncLoop_succ, if_neg (by rw [hcanc]; simp), if_neg (by rw [hff]; simp),
        if_neg (by rw [hemp]; simp)]
      rw [processPage_no_cancel env fts _ db (10 * j) (env.gallery.take (10 * j))
        (fun i hi => by
          rw [hc]
          simp only [decide_eq_false_iff_not]
          rw [hlen10] at hi
          omega)]
      dsimp only
      rw [hlen10, hafter]
      have hnext : 10 * j + 10 < env.gallery.length := by omega
      rw [if_pos hnext]
      have htr : env.gallery.take (10 * j) ++ (env.gallery.drop (10 * j)).take 10
          = env.gallery.take (10 * (j + 1)) := by
        have e : 10 * (j + 1) = 10 * j + 10 := by ring
        rw [e, List.take_add]
      have htot : 10 * j + 10 = 10 * (j + 1) := by ring
      rw [htr, htot]
      exact ih (j + 1)
        (some (10 * (j + 1)))
        (processList env fts ((env.gallery.drop (10 * j)).take 10) db)
        (by omega) (by simp) (by omega)

/-- C4, counterexample to the claim as stated: a 12-item gallery cancelled
after 5 items (mid-page, with no cursor yet persisted) resumes from
scratch — the second run reprocesses the first 5 items (its trace is the
whole gallery, not the remainder) and the two processed counts sum to 17,
not 12. -/
theorem C4_counterexample :
    ((performFullGallerySync
        ⟨["u1","u2","u3","u4","u5","u6","u7","u8","u9","u10","u11","u12"],
          fun _ => Except.ok "", fun _ => Except.error (), fun _ => false,
          fun n => decide (5 ≤ n)⟩
        true none none emptyDB).result = Except.ok (5, true))
    ∧ ((performFullGallerySync
        ⟨["u1","u2","u3","u4","u5","u6","u7","u8","u9","u10","u11","u12"],
          fun _ => Except.ok "", fun _ => Except.error (), fun _ => false,
          fun _ => false⟩
        true
        (performFullGallerySync
          ⟨["u1","u2","u3","u4","u5","u6","u7","u8","u9","u10","u11","u12"],
            fun _ => Except.ok "", fun _ => Except.error (), fun _ => false,
            fun n => decide (5 ≤ n)⟩
          true none none emptyDB).persisted
        (performFullGallerySync
          ⟨["u1","u2","u3","u4","u5","u6","u7","u8","u9","u10","u11","u12"],
            fun _ => Except.ok "", fun _ => Except.error (), fun _ => false,
            fun n => decide (5 ≤ n)⟩
          true none none emptyDB).persisted
        (performFullGallerySync
          ⟨["u1","u2","u3","u4","u5","u6","u7","u8","u9","u10","u11","u12"],
            fun _ => Except.ok "", fun _ => Except.error (), fun _ => false,
            fun n => decide (5 ≤ n)⟩
          true none none emptyDB).db).result = Except.ok (12, false))
    ∧ ((performFullGallerySync
        ⟨["u1","u2","u3","u4","u5","u6","u7","u8","u9","u10","u11","u12"],
          fun _ => Except.ok "", fun _ => Except.error (), fun _ => false,
          fun _ => false⟩
        true
        (performFullGallerySync
          ⟨["u1","u2","u3","u4","u5","u6","u7","u8","u9","u10","u11","u12"],
            fun _ => Except.ok "", fun _ => Except.error (), fun _ => false,
            fun n => decide (5 ≤ n)⟩
          true none none emptyDB).persisted
        (performFullGallerySync
          ⟨["u1","u2","u3","u4","u5","u6","u7","u8","u9","u10","u11","u12"],
            fun _ => Except.ok "", fun _ => Except.error (), fun _ => false,
            fun n => decide (5 ≤ n)⟩
          true none none emptyDB).persisted
        (performFullGallerySync
          ⟨["u1","u2","u3","u4","u5","u6","u7","u8","u9","u10","u11","u12"],
            fun _ => Except.ok "", fun _ => Except.error (), fun _ => false,
            fun n => decide (5 ≤ n)⟩
          true none none emptyDB).db).trace
        = ["u1","u2","u3","u4","u5","u6","u7","u8","u9","u10","u11","u12"])
    ∧ 5 + 12 ≠ 12 := by
  refine ⟨by decide, by decide, by decide, by decide⟩

end Pinpoint

namespace Pinpoint

/-- C4 (amended): when the cancellation becomes observable at a page
boundary — after `10 * k` items, as in the specification's own scenario —
resuming from the persisted cursor processes each remaining item exactly
once: the first run reports the first `10 * k` items and persists cursor
`10 * k`; the resumed run (same gallery, cancellation cleared, cursor
loaded from storage) reports exactly the remaining items, returns
`cancelled = false`, and the two processed counts sum to the gallery
size.  For a cancellation observed mid-page the code reverts to the last
page boundary and recounts the partial page (see the counterexample), so
the claim holds only at page-boundary cancellations. -/
theorem C4_resume_at_page_boundary (env env2 : SyncEnv) (fts : Bool) (db0 : DB) (k : Nat)
    (hc : ∀ n, env.cancel n = decide (10 * k ≤ n))
    (hf : ∀ n, env.fetchFail n = false)
    (hk : 1 ≤ k) (hlen : 10 * k < env.gallery.length)
    (henv2 : env2 = ⟨env.gallery, env.ocr, env.gen, env.fetchFail, fun _ => false⟩) :
    (performFullGallerySync env fts none none db0).result = Except.ok (10 * k, true)
    ∧ (performFullGallerySync env fts none none db0).persisted = some (10 * k)
    ∧ (performFullGallerySync env fts none none db0).trace = env.gallery.take (10 * k)
    ∧ (performFullGallerySync env2 fts
          (performFullGallerySync env fts none none db0).persisted
          (performFullGallerySync env fts none none db0).persisted
          (performFullGallerySync env fts none none db0).db).result
        = Except.ok (env.gallery.length - 10 * k, false)
    ∧ (performFullGallerySync env2 fts
          (performFullGallerySync env fts none none db0).persisted
          (performFullGallerySync env fts none none db0).persisted
          (performFullGallerySync env fts none none db0).db).persisted = none
    ∧ (performFullGallerySync env2 fts
          (performFullGallerySync env fts none none db0).persisted
          (performFullGallerySync env fts none none db0).persisted
          (performFullGallerySync env fts none none db0).db).trace
        = env.gallery.drop (10 * k)
    ∧ (performFullGallerySync env fts none none db0).trace
        ++ (performFullGallerySync env2 fts
              (performFullGallerySync env fts none none db0).persisted
              (performFullGallerySync env fts none none db0).persisted
              (performFullGallerySync env fts none none db0).db).trace
        = env.gallery := by
  subst henv2
  have h1 := syncLoop_cancel_at_boundary env fts k hc hf hk hlen
    (env.gallery.length + 1) 0 none db0 (by omega) (by simp) (by omega)
  have heq1 : performFullGallerySync env fts none none db0
      = syncLoop env fts (env.gallery.length + 1) none none db0 (10 * 0)
          (env.gallery.take (10 * 0)) := rfl
  rw [heq1]
  obtain ⟨hr1, hp1, ht1⟩ := h1
  rw [hp1]
  have heq2 : performFullGallerySync
        ⟨env.gallery, env.ocr, env.gen, env.fetchFail, fun _ => false⟩ fts
        (some (10 * k)) (some (10 * k))
        (syncLoop env fts (env.gallery.length + 1) none none db0 (10 * 0)
          (env.gallery.take (10 * 0))).db
      = syncLoop ⟨env.gallery, env.ocr, env.gen, env.fetchFail, fun _ => false⟩ fts
          (env.gallery.length + 1) (some (10 * k)) (some (10 * k))
          (syncLoop env fts (env.gallery.length + 1) none none db0 (10 * 0)
            (env.gallery.take (10 * 0))).db 0 [] := rfl
  rw [heq2]
  have hrun2 := syncLoop_no_cancel_run
    ⟨env.gallery, env.ocr, env.gen, env.fetchFail, fun _ => false⟩ fts
    (fun _ => rfl) hf
    (env.gallery.length + 1) (some (10 * k)) (some (10 * k))
    (syncLoop env fts (env.gallery.length + 1) none none db0 (10 * 0)
      (env.gallery.take (10 * 0))).db 0 []
    (by omega) (by simp only [Option.getD_some]; omega)
  rw [hrun2]
  refine ⟨hr1, rfl, ht1, ?_, rfl, ?_, ?_⟩
  · simp
  · simp
  · rw [ht1]
    simp only [Option.getD_some, List.nil_append]
    exact List.take_append_drop _ _

/-- C4, witness: the specification's scenario — 12 items in pages of 10
and 2, cancelled after item 10, resumed from the persisted cursor —
finishes with `10 + 2 = 12` processed across both runs and
`cancelled = false` on the second call. -/
theorem C4_resume_at_page_boundary_witness :
    ((performFullGallerySync
        ⟨["u1","u2","u3","u4","u5","u6","u7","u8","u9","u10","u11","u12"],
          fun _ => Except.ok "", fun _ => Except.error (), fun _ => false,
          fun n => decide (10 * 1 ≤ n)⟩
        true none none emptyDB).result = Except.ok (10 * 1, true))
    ∧ ((performFullGallerySync
          ⟨["u1","u2","u3","u4","u5","u6","u7","u8","u9","u10","u11","u12"],
            fun _ => Except.ok "", fun _ => Except.error (), fun _ => false,
            fun _ => false⟩
          true
          (performFullGallerySync
            ⟨["u1","u2","u3","u4","u5","u6","u7","u8","u9","u10","u11","u12"],
              fun _ => Except.ok "", fun _ => Except.error (), fun _ => false,
              fun n => decide (10 * 1 ≤ n)⟩
            true none none emptyDB).persisted
          (performFullGallerySync
            ⟨["u1","u2","u3","u4","u5","u6","u7","u8","u9","u10","u11","u12"],
              fun _ => Except.ok "", fun _ => Except.error (), fun _ => false,
              fun n => decide (10 * 1 ≤ n)⟩
            true none none emptyDB).persisted
          (performFullGallerySync
            ⟨["u1","u2","u3","u4","u5","u6","u7","u8","u9","u10","u11","u12"],
              fun _ => Except.ok "", fun _ => Except.error (), fun _ => false,
              fun n => decide (10 * 1 ≤ n)⟩
            true none none emptyDB).db).result
        = Except.ok (12 - 10 * 1, false)) :=
  have h := C4_resume_at_page_boundary
    ⟨["u1","u2","u3","u4","u5","u6","u7","u8","u9","u10","u11","u12"],
      fun _ => Except.ok "", fun _ => Except.error (), fun _ => false,
      fun n => decide (10 * 1 ≤ n)⟩
    ⟨["u1","u2","u3","u4","u5","u6","u7","u8","u9","u10","u11","u12"],
      fun _ => Except.ok "", fun _ => Except.error (), fun _ => false,
      fun _ => false⟩
    true emptyDB 1 (fun _ => rfl) (fun _ => rfl) (by decide) (by decide) rfl
  ⟨h.1, h.2.2.2.1⟩

end Pinpoint
